import Mathlib

/-!
Verification of the reacto coding-agent repository.

Part A embeds the path-taking capabilities of `src/tools.py` (the POSIX path
arithmetic of `os.path.join` / `os.path.abspath` / `os.path.dirname`, the
`startswith`-based security check, and the filesystem effects of `read_file`
and `write_file` over an explicit filesystem state).

Part B embeds the turn loop of `src/agent.py` (`main_loop`) as a step
function over an explicit loop state, driven by oracles for the external
collaborators (the reasoning model, the JSON corrector, the human approval
input, the `json.loads` library call, and the capability registry's
observation strings).
-/

namespace Reacto

/-! ## Part A: POSIX path arithmetic, as used by `src/tools.py` -/

/-- Python `str.strip()` on a character list: drop whitespace from both ends. -/
def pyStripList (l : List Char) : List Char :=
  (((l.dropWhile Char.isWhitespace).reverse).dropWhile Char.isWhitespace).reverse

/-- Python `str.strip()`. -/
def pyStrip (s : String) : String := String.mk (pyStripList s.data)

/-- Python `s.startswith(p)`: `p` is a character-wise prefix of `s`. -/
def pyStartswith (s p : String) : Bool := p.data.isPrefixOf s.data

/-- Split a character list on `/`. -/
def splitSlashAux : List Char → List Char → List (List Char)
  | [], acc => [acc.reverse]
  | c :: cs, acc =>
      if c = '/' then acc.reverse :: splitSlashAux cs []
      else splitSlashAux cs (c :: acc)

/-- Split a string on `/` (as Python `s.split('/')`). -/
def splitSlash (s : String) : List String := (splitSlashAux s.data []).map String.mk

/-- Whether a POSIX path string is absolute. -/
def isAbsPath (s : String) : Bool := pyStartswith s "/"

/-- `os.path.join(a, b)` for POSIX paths (two arguments, as used in tools.py). -/
def pyJoin (a b : String) : String :=
  if isAbsPath b then b
  else if a = "" then b
  else if a.data.getLast? = some '/' then a ++ b
  else a ++ "/" ++ b

/-- Resolve `..` components of an absolute path left to right
(`..` at the root stays at the root, as `os.path.normpath` does). -/
def resolveDotsAux : List String → List String → List String
  | [], stack => stack.reverse
  | c :: rest, stack =>
      if c = ".." then resolveDotsAux rest stack.tail
      else resolveDotsAux rest (c :: stack)

/-- Join path components with `/`. -/
def joinSlash : List String → String
  | [] => ""
  | [x] => x
  | x :: y :: xs => x ++ "/" ++ joinSlash (y :: xs)

/-- The normalized component list of an absolute POSIX path:
split on `/`, drop empty and `.` components, resolve `..`. -/
def normAbsParts (s : String) : List String :=
  resolveDotsAux ((splitSlash s).filter (fun c => !(c == "") && !(c == "."))) []

/-- Render an absolute path from its normalized components. -/
def renderAbs (parts : List String) : String := "/" ++ joinSlash parts

/-- `os.path.abspath(s)` with an explicit absolute working directory `cwd`
(no symlinks): join with `cwd` when relative, then normalize. -/
def pyAbspath (cwd s : String) : String :=
  renderAbs (normAbsParts (if isAbsPath s then s else pyJoin cwd s))

/-- `os.path.dirname(s)` for POSIX paths: everything before the last `/`,
with trailing slashes stripped unless the head is all slashes. -/
def pyDirname (s : String) : String :=
  let afterSlash := s.data.reverse.dropWhile (fun c => !(c == '/'))
  match afterSlash with
  | [] => ""
  | _ =>
      let head := afterSlash.reverse
      if head.all (fun c => c == '/') then String.mk head
      else String.mk (head.reverse.dropWhile (fun c => c == '/')).reverse

/-- The denial observation of tools.py for paths failing the security check. -/
def denyMsg : String := "Error: Access denied. Path is outside the codebase directory."

/-- The security check of tools.py `read_file` / `write_file` / `delete_file`:
`os.path.abspath(os.path.join(root, p)).startswith(os.path.abspath(root))`. -/
def insideByCheck (cwd root p : String) : Bool :=
  pyStartswith (pyAbspath cwd (pyJoin root p)) (pyAbspath cwd root)

/-- Whether the resolved absolute path of `p` truly lies outside the directory
tree rooted at `root` (it is neither the root itself nor below it). -/
def escapesRoot (cwd root p : String) : Bool :=
  let r := pyAbspath cwd root
  let t := pyAbspath cwd (pyJoin root p)
  !((t == r) || pyStartswith t (r ++ "/"))

/-! ### Filesystem state -/

/-- An explicit filesystem: directories and files keyed by their normalized
absolute paths (no symlinks). -/
structure FS where
  dirs : List String
  files : List (String × String)
deriving DecidableEq

def FS.isFile (fs : FS) (p : String) : Bool := fs.files.any (fun f => f.1 == p)

def FS.fileContent (fs : FS) (p : String) : Option String :=
  (fs.files.find? (fun f => f.1 == p)).map Prod.snd

def FS.isDir (fs : FS) (p : String) : Bool := fs.dirs.contains p

/-- `os.path.exists` over the explicit filesystem. -/
def FS.pathExists (fs : FS) (p : String) : Bool := fs.isDir p || fs.isFile p

/-- The raw component list of a path as the kernel walks it: split on `/`,
dropping empty and `.` components but keeping `..` uninterpreted (`mkdir`
and `stat` resolve `..` against the directories they actually traverse). -/
def cleanComps (s : String) : List String :=
  (splitSlash s).filter (fun c => !(c == "") && !(c == "."))

/-- The absolute raw components of `name` as walked from `cwd` when `name`
is relative (a relative path is resolved against the working directory). -/
def rawParts (cwd name : String) : List String :=
  cleanComps (if isAbsPath name then name else pyJoin cwd name)

/-- The rendered walk prefixes of a component list, shortest first: the
directories a `..`-free walk traverses or creates. -/
def walkPrefixes (comps : List String) : List String :=
  (List.range comps.length).map (fun k => renderAbs (comps.take (k + 1)))

/-- `os.path.exists` as the kernel's component walk from the root: every
intermediate component must be an existing directory (a file gives ENOTDIR,
a missing entry ENOENT, both making the stat fail), the final one may be a
directory or a file, and `..` steps up. -/
def existsWalk (fs : FS) : List String → List String → Bool
  | [], _ => true
  | [c], stack =>
      if c == ".." then true
      else fs.isDir (renderAbs (stack ++ [c])) || fs.isFile (renderAbs (stack ++ [c]))
  | c :: rest, stack =>
      if c == ".." then existsWalk fs rest stack.dropLast
      else if fs.isDir (renderAbs (stack ++ [c])) then
        existsWalk fs rest (stack ++ [c])
      else false

/-- Kernel resolution of the directory prefix of `mkdir`'s argument: each
component must resolve to an existing directory — a file raises
`NotADirectoryError`, a missing entry `FileNotFoundError` — and `..` steps
up. -/
def walkResolve (fs : FS) : List String → List String → Except String (List String)
  | [], stack => Except.ok stack
  | c :: rest, stack =>
      if c == ".." then walkResolve fs rest stack.dropLast
      else if fs.isDir (renderAbs (stack ++ [c])) then
        walkResolve fs rest (stack ++ [c])
      else if fs.isFile (renderAbs (stack ++ [c])) then
        Except.error "NotADirectoryError"
      else Except.error "FileNotFoundError"

/-- One `os.mkdir(name)` under the `exist_ok=True` handling of
`os.makedirs` (`except OSError: if not exist_ok or not path.isdir(name):
raise`): resolve the prefix `initC`, then create the final component `t`.
An existing directory is tolerated (EEXIST swallowed because
`path.isdir(name)` holds), an existing file raises `FileExistsError`, and a
trailing `..` resolves to an existing directory (EEXIST swallowed). -/
def mkdirC (fs : FS) (initC : List String) (t : String) : FS × Option String :=
  match walkResolve fs initC [] with
  | Except.error e => (fs, some e)
  | Except.ok stack =>
      if t == ".." then (fs, none)
      else if fs.isDir (renderAbs (stack ++ [t])) then (fs, none)
      else if fs.isFile (renderAbs (stack ++ [t])) then (fs, some "FileExistsError")
      else ({ fs with dirs := fs.dirs ++ [renderAbs (stack ++ [t])] }, none)

/-- CPython `os.makedirs(name, exist_ok=True)` over the reversed raw
component list of `name`: when the head does not exist, recursively create
it (swallowing only `FileExistsError`, and propagating the partial state),
then `mkdir` the full unnormalized path. Because the walk is over the raw
components, an obstructed `..` prefix (a file where a directory is needed)
raises `NotADirectoryError` exactly as the kernel does. -/
def makedirsRev (fs : FS) : List String → FS × Option String
  | [] => (fs, none)
  | t :: initRev =>
      match
        (if !existsWalk fs initRev.reverse [] then
          match makedirsRev fs initRev with
          | (fs2, some e) =>
              if e == "FileExistsError" then (fs2, none) else (fs2, some e)
          | (fs2, none) => (fs2, none)
        else (fs, none)) with
      | (fs2, some e) => (fs2, some e)
      | (fs2, none) => mkdirC fs2 initRev.reverse t

/-- `os.makedirs(name, exist_ok=True)` on the raw path string, walked from
`cwd` when relative (as tools.py calls it on the unnormalized
`os.path.dirname(full_path)`). -/
def makedirs (cwd : String) (fs : FS) (name : String) : FS × Option String :=
  makedirsRev fs (rawParts cwd name).reverse

/-- The immediate parent of a normalized absolute path. -/
def parentDir (p : String) : String := renderAbs (normAbsParts p).dropLast

/-- `open(p, 'w')` followed by writing `content`: fails when `p` is a
directory or its parent directory does not exist. -/
def openWrite (fs : FS) (p content : String) : Except String FS :=
  if fs.isDir p then Except.error "IsADirectoryError"
  else if !fs.isDir (parentDir p) && !(parentDir p == "/") then
    Except.error "FileNotFoundError"
  else
    Except.ok { fs with files := (p, content) :: fs.files.filter (fun f => !(f.1 == p)) }

/-! ### The path-taking capabilities of tools.py -/

/-- tools.py `read_file` (lines 47-64): security check, existence check,
then read. `cwd` is the process working directory, `root` is
`config.CODEBASE_DIR`. -/
def read_file (cwd root : String) (fs : FS) (filepath : String) : String :=
  if !insideByCheck cwd root filepath then denyMsg
  else
    let p := pyAbspath cwd (pyJoin root filepath)
    if !fs.pathExists p then "Error: File '" ++ filepath ++ "' not found."
    else
      match fs.fileContent p with
      | some content => content
      | none => "Error reading file: IsADirectoryError"

/-- tools.py `write_file` (lines 66-84): security check, then
`os.makedirs(os.path.dirname(full_path), exist_ok=True)` on the raw
(unnormalized) dirname of the joined path, then write. Returns the
observation string and the updated filesystem; exceptions are caught and
formatted, leaving the filesystem as it was at the failure point (including
directories a partially successful `makedirs` already created). -/
def write_file (cwd root : String) (fs : FS) (filepath content : String) :
    String × FS :=
  if !insideByCheck cwd root filepath then (denyMsg, fs)
  else
    match makedirs cwd fs (pyDirname (pyJoin root filepath)) with
    | (fs1, some e) => ("Error writing file: " ++ e, fs1)
    | (fs1, none) =>
        match openWrite fs1 (pyAbspath cwd (pyJoin root filepath)) content with
        | Except.error e => ("Error writing file: " ++ e, fs1)
        | Except.ok fs2 =>
            ("File '" ++ filepath ++ "' has been written successfully.", fs2)

/-! ### The capability registry (`AVAILABLE_TOOLS` and `execute_tool`) -/

/-- The keys of `AVAILABLE_TOOLS` (tools.py lines 157-164). -/
def toolNames : List String :=
  ["list_files", "read_file", "write_file", "delete_file",
   "run_terminal_command", "search_codebase"]

/-- The outcome of one `subprocess.run` call inside `run_terminal_command`:
completion (with captured stdout/stderr and the exit code), a missing
command, a timeout, or another raised exception. -/
inductive ProcOutcome where
  | completed : String → String → Int → ProcOutcome
  | fileNotFound : ProcOutcome
  | timedOut : ProcOutcome
  | otherExc : String → ProcOutcome

/-- tools.py `run_terminal_command` (lines 105-130) over the subprocess
outcome: every failure is caught and formatted as an observation string;
a non-zero exit code is reported through the captured stdout/stderr text
(`subprocess.run` without `check=True` does not raise on it). -/
def run_terminal_command (proc : ProcOutcome) (command : String) : String :=
  match proc with
  | ProcOutcome.completed out err _ =>
      "STDOUT:\n" ++ out ++ "\n" ++ (if err == "" then "" else "STDERR:\n" ++ err)
  | ProcOutcome.fileNotFound =>
      "Error: Command not found. Make sure the tool is installed and in your PATH."
  | ProcOutcome.timedOut => "Error: Command timed out after 120 seconds."
  | ProcOutcome.otherExc e => "Error executing command: " ++ e

/-! ## Part B: the turn loop of `src/agent.py` (`main_loop`, lines 121-241) -/

/- JSON values, as produced by `json.loads` (objects keep insertion order). -/
mutual
inductive J where
  | jnull : J
  | jbool : Bool → J
  | jnum : Int → J
  | jstr : String → J
  | jarr : JArr → J
  | jobj : JObj → J
inductive JArr where
  | nil : JArr
  | cons : J → JArr → JArr
inductive JObj where
  | nil : JObj
  | cons : String → J → JObj → JObj
end

/-- Python `dict.get(k)`: the first binding of `k`, if any. -/
def jGet : JObj → String → Option J
  | JObj.nil, _ => none
  | JObj.cons k v rest, key => if k == key then some v else jGet rest key

/-- Python `dict.get(k, default)`. -/
def jGetD (o : JObj) (key : String) (d : J) : J := (jGet o key).getD d

/-- Python truth-value test (`if not x`): `None`, `False`, `0`, `""`, `[]`,
`{}` are falsy. -/
def falsy : J → Bool
  | J.jnull => true
  | J.jbool b => !b
  | J.jnum n => n == 0
  | J.jstr s => s == ""
  | J.jarr JArr.nil => true
  | J.jarr _ => false
  | J.jobj JObj.nil => true
  | J.jobj _ => false

/-- Whether a JSON value is an object (a Python dict). -/
def isObj : J → Bool
  | J.jobj _ => true
  | _ => false

/-- Whether a JSON value is a string. -/
def isStr : J → Bool
  | J.jstr _ => true
  | _ => false

/-- Whether a Python value is unhashable (lists and dicts): using it as a
dict key, as `execute_tool` does at agent.py line 88, raises `TypeError`. -/
def unhashableJ : J → Bool
  | J.jarr _ => true
  | J.jobj _ => true
  | _ => false

/-- Python `x == s` for a JSON value against a string literal: only equal
strings compare equal. -/
def jEqStr (x : J) (s : String) : Bool :=
  match x with
  | J.jstr t => t == s
  | _ => false

/- A rendering of a JSON value, modelling `json.dumps` (the claims depend on
which value is recorded in history, not on dump whitespace, so the
`indent=2` pretty-printing of agent.py line 224 is not reproduced). -/
mutual
def dumps : J → String
  | J.jnull => "null"
  | J.jbool true => "true"
  | J.jbool false => "false"
  | J.jnum n => toString n
  | J.jstr s => "\"" ++ s ++ "\""
  | J.jarr xs => "[" ++ dumpsArr xs ++ "]"
  | J.jobj fs => "\x7b" ++ dumpsObj fs ++ "\x7d"
def dumpsArr : JArr → String
  | JArr.nil => ""
  | JArr.cons x JArr.nil => dumps x
  | JArr.cons x rest => dumps x ++ ", " ++ dumpsArr rest
def dumpsObj : JObj → String
  | JObj.nil => ""
  | JObj.cons k v JObj.nil => "\"" ++ k ++ "\": " ++ dumps v
  | JObj.cons k v rest => "\"" ++ k ++ "\": " ++ dumps v ++ ", " ++ dumpsObj rest
end

/-- agent.py `execute_tool` (lines 86-94), for a string action name and a
JSON argument mapping, over an oracle `call` giving each capability
invocation's result — a returned observation string or a raised exception
(including a `TypeError` from binding `**args`). An unknown name yields the
formatted "not found" observation; a raised exception is caught and
formatted; the function itself is total, so nothing propagates to the
Controller. -/
def execute_tool (call : String → J → Except String String)
    (tool_name : String) (args : J) : String :=
  if toolNames.contains tool_name then
    match call tool_name args with
    | Except.ok s => s
    | Except.error e => "Error executing tool " ++ tool_name ++ ": " ++ e
  else "Error: Tool '" ++ tool_name ++ "' not found."

/-- Python `str.lower()` (ASCII). -/
def pyLower (s : String) : String := String.mk (s.data.map Char.toLower)

/-- agent.py lines 153-154: strip a ```json fenced-code wrapper when present
(`response_text.strip()[7:-3].strip()`); otherwise the text is unchanged. -/
def stripFence (s : String) : String :=
  let t := pyStrip s
  if pyStartswith t "```json" then
    String.mk (pyStripList ((t.data.drop 7).take (t.data.length - 7 - 3)))
  else s

/-- One history entry: `{"role": ..., "parts": [...]}`. -/
structure Turn where
  role : String
  parts : List String
deriving DecidableEq

/-- The result of one `llm_client.generate_content(history)` call:
either raw text or a raised exception. -/
inductive GenResult where
  | raises : GenResult
  | text : String → GenResult

/-- The result of one `corrector_client.correct_json(...)` call. -/
inductive CorrResult where
  | craises : CorrResult
  | ctext : String → CorrResult

/-- What `console.input` yields at the approval prompt: a line of input, or
`KeyboardInterrupt`. -/
inductive ApprovalResult where
  | line : String → ApprovalResult
  | interrupt : ApprovalResult

/-- Oracles for the loop's external collaborators, indexed by turn number.
`jsonLoads` abstracts the `json.loads` library call (returning `none` for a
`JSONDecodeError`); `dispatch` abstracts the observation string returned by
`execute_tool` for a dispatched action. -/
structure Oracles where
  gen : Nat → GenResult
  corrEnabled : Bool
  corr : Nat → CorrResult
  appr : Nat → ApprovalResult
  jsonLoads : String → Option J
  dispatch : J → J → String

/-- How the run of `main_loop` can end. The first four are the named
terminal states of the specification; `noToolName` is the `break` at
agent.py lines 205-207 (a parsed action without a truthy `tool_name`);
`crashed` is an uncaught exception escaping the loop body (an
`AttributeError`/`TypeError` on an ill-typed parsed field). -/
inductive ExitKind where
  | done : ExitKind
  | cancelled : ExitKind
  | budgetExhausted : ExitKind
  | fatal : ExitKind
  | noToolName : ExitKind
  | crashed : ExitKind
deriving DecidableEq

def msgInvalidJson : String :=
  "Your previous response was not valid JSON. Please correct your JSON formatting."

def msgCorrFailed : String :=
  "Your previous response was not valid JSON, and the correction attempt failed. Please try again with valid JSON."

def msgProcessIssue : String :=
  "There was an issue processing your last valid JSON response. Please reconsider your plan."

def rejectedMsg : String :=
  "That action was rejected. Please think of a different approach."

/-- Whether `display_diff` (agent.py lines 96-118, invoked at 217-218 for a
proposed `write_file`) completes without an uncaught exception: it calls
`args.get(...)` and passes the results to `os.path.join` and `.splitlines`,
so `args` must be a dict with string `filepath` and `content` values. -/
def writePreviewOk : J → Bool
  | J.jobj af => isStr (jGetD af "filepath" (J.jstr "")) &&
      isStr (jGetD af "content" (J.jstr ""))
  | _ => false

/-- The control-flow outcome of one loop iteration. A `contin` outcome
carries exactly what the iteration appends to history and whether it
dispatched a capability and consulted the approval gate; a `halt` outcome
exits the loop (appending nothing and dispatching nothing). -/
inductive TurnOutcome where
  | halt : ExitKind → Bool → TurnOutcome
  | contin : Turn → Turn → Option (J × J) → Bool → TurnOutcome

/-- agent.py lines 188-238, from a successfully decoded `response_json`:
extract `thought`/`action`, check `tool_name`, short-circuit `finish`,
preview `write_file`, consult the approval gate, dispatch. -/
def afterParse (o : Oracles) (i : Nat) (j : J) : TurnOutcome :=
  match j with
  | J.jobj fields =>
      match jGetD fields "action" (J.jobj JObj.nil) with
      | J.jobj afields =>
          let args := jGetD afields "args" (J.jobj JObj.nil)
          match jGet afields "tool_name" with
          | none => TurnOutcome.halt ExitKind.noToolName false
          | some tn =>
              if falsy tn then TurnOutcome.halt ExitKind.noToolName false
              else if jEqStr tn "finish" then
                match args with
                | J.jobj _ => TurnOutcome.halt ExitKind.done false
                | _ => TurnOutcome.halt ExitKind.crashed false
              else if jEqStr tn "write_file" && !writePreviewOk args then
                TurnOutcome.halt ExitKind.crashed false
              else
                match o.appr i with
                | ApprovalResult.interrupt =>
                    TurnOutcome.halt ExitKind.cancelled true
                | ApprovalResult.line s =>
                    if !(pyLower s == "y") then
                      TurnOutcome.contin ⟨"model", [dumps j]⟩
                        ⟨"user", [rejectedMsg]⟩ none true
                    else if unhashableJ tn then
                      TurnOutcome.halt ExitKind.crashed true
                    else
                      TurnOutcome.contin ⟨"model", [dumps j]⟩
                        ⟨"user", [o.dispatch tn args]⟩ (some (tn, args)) true
      | _ => TurnOutcome.halt ExitKind.crashed false
  | _ =>
      TurnOutcome.contin ⟨"model", [dumps j]⟩ ⟨"user", [msgProcessIssue]⟩
        none false

/-- agent.py lines 147-238: the control flow of one iteration of the `for`
loop — generation, fence stripping, JSON decoding, the two-tier correction
protocol, then `afterParse`. -/
def turnOutcome (o : Oracles) (i : Nat) : TurnOutcome :=
  match o.gen i with
  | GenResult.raises => TurnOutcome.halt ExitKind.fatal false
  | GenResult.text raw =>
      let rt := stripFence raw
      match o.jsonLoads rt with
      | some j => afterParse o i j
      | none =>
          if !o.corrEnabled then
            TurnOutcome.contin ⟨"model", [rt]⟩ ⟨"user", [msgInvalidJson]⟩
              none false
          else
            match o.corr i with
            | CorrResult.craises =>
                TurnOutcome.contin ⟨"model", [rt]⟩ ⟨"user", [msgCorrFailed]⟩
                  none false
            | CorrResult.ctext ct =>
                let rt2 := stripFence ct
                match o.jsonLoads rt2 with
                | none =>
                    TurnOutcome.contin ⟨"model", [rt2]⟩
                      ⟨"user", [msgCorrFailed]⟩ none false
                | some j => afterParse o i j

/-- The mutable state owned by the Controller: the conversation history, the
trace of dispatched capability invocations, and how many times the approval
gate was consulted. -/
structure LoopState where
  history : List Turn
  dispatches : List (J × J)
  approvalsAsked : Nat

/-- The result of one loop iteration applied to the state. -/
inductive StepRes where
  | next : LoopState → StepRes
  | exit : ExitKind → LoopState → StepRes

/-- Apply one iteration's outcome to the loop state: a continuing iteration
appends exactly its model-role and user-role turns (agent.py only ever calls
`history.append`) and extends the dispatch trace by at most one invocation. -/
def stepTurn (o : Oracles) (i : Nat) (st : LoopState) : StepRes :=
  match turnOutcome o i with
  | TurnOutcome.halt k asked =>
      StepRes.exit k
        { st with approvalsAsked := st.approvalsAsked + (if asked then 1 else 0) }
  | TurnOutcome.contin mt ut disp asked =>
      StepRes.next
        { history := st.history ++ [mt, ut]
          dispatches := st.dispatches ++ disp.toList
          approvalsAsked := st.approvalsAsked + (if asked then 1 else 0) }

/-- A running or finished execution of `main_loop`: the next turn index, the
exit reached (if any), and the loop state. -/
structure RunState where
  i : Nat
  exit : Option ExitKind
  st : LoopState

/-- One advance of the run: a finished run stays put; reaching the turn
budget exits with `BUDGET_EXHAUSTED` (the `for`/`else` of agent.py lines
144/240-241); otherwise one loop iteration executes. -/
def advance (o : Oracles) (mt : Nat) (r : RunState) : RunState :=
  match r.exit with
  | some _ => r
  | none =>
      if mt ≤ r.i then { r with exit := some ExitKind.budgetExhausted }
      else
        match stepTurn o r.i r.st with
        | StepRes.next st2 => { i := r.i + 1, exit := none, st := st2 }
        | StepRes.exit k st2 => { i := r.i + 1, exit := some k, st := st2 }

/-- The run state after `n` advances. -/
def afterN (o : Oracles) (mt : Nat) (r : RunState) : Nat → RunState
  | 0 => r
  | n + 1 => afterN o mt (advance o mt r) n

/-- The whole run of `main_loop` with turn budget `mt` from initial loop
state `init`: `mt + 1` advances always suffice to reach an exit. -/
def finalRun (o : Oracles) (mt : Nat) (init : LoopState) : RunState :=
  afterN o mt ⟨0, none, init⟩ (mt + 1)

/-- The process exit status attached to a loop exit: `main_loop` returns
normally after every `break` and after the `for`/`else`, so the interpreter
exits 0; only an uncaught exception ends the process with a non-zero
status (a traceback). -/
def exitCode : ExitKind → Nat
  | ExitKind.crashed => 1
  | _ => 0

/-- The process exit status of `python agent.py`: `sys.exit(1)` when
`get_llm_api`/`get_corrector_api` raise `ValueError` at startup (missing
credential or unresolvable provider, agent.py lines 123-128), else the
status attached to the loop's exit. -/
def mainExitCode (configOk : Bool) (o : Oracles) (mt : Nat)
    (init : LoopState) : Nat :=
  if !configOk then 1
  else
    match (finalRun o mt init).exit with
    | some k => exitCode k
    | none => 0

/-! ### Generic lemmas about the run -/

theorem stepTurn_next_history (o : Oracles) (i : Nat) (st st2 : LoopState)
    (h : stepTurn o i st = StepRes.next st2) :
    (∃ t1 t2 : Turn, st2.history = st.history ++ [t1, t2]) ∧
    st2.dispatches.length ≤ st.dispatches.length + 1 := by
  unfold stepTurn at h
  cases hto : turnOutcome o i with
  | halt k asked => rw [hto] at h; exact absurd h (by simp)
  | contin t1 t2 disp asked =>
      rw [hto] at h
      injection h with h2
      subst h2
      refine ⟨⟨t1, t2, rfl⟩, ?_⟩
      simp only [List.length_append]
      cases disp <;> simp

theorem stepTurn_exit_state (o : Oracles) (i : Nat) (st st2 : LoopState)
    (k : ExitKind) (h : stepTurn o i st = StepRes.exit k st2) :
    st2.history = st.history ∧ st2.dispatches = st.dispatches := by
  unfold stepTurn at h
  cases hto : turnOutcome o i with
  | halt k2 asked =>
      rw [hto] at h
      injection h with h1 h2
      subst h2
      exact ⟨rfl, rfl⟩
  | contin t1 t2 disp asked => rw [hto] at h; exact absurd h (by simp)

theorem advance_exited (o : Oracles) (mt : Nat) (r : RunState) (k : ExitKind)
    (h : r.exit = some k) : advance o mt r = r := by
  unfold advance
  rw [h]

theorem afterN_exited (o : Oracles) (mt : Nat) (r : RunState) (k : ExitKind)
    (h : r.exit = some k) : ∀ n, afterN o mt r n = r := by
  intro n
  induction n with
  | zero => rfl
  | succ n ih =>
      show afterN o mt (advance o mt r) n = r
      rw [advance_exited o mt r k h]
      exact ih

theorem afterN_succ_in (o : Oracles) (mt : Nat) (r : RunState) (n : Nat) :
    afterN o mt r (n + 1) = afterN o mt (advance o mt r) n := rfl

theorem afterN_succ_out (o : Oracles) (mt : Nat) (r : RunState) :
    ∀ n, afterN o mt r (n + 1) = advance o mt (afterN o mt r n) := by
  intro n
  induction n generalizing r with
  | zero => rfl
  | succ n ih =>
      show afterN o mt (advance o mt r) (n + 1) = _
      rw [ih (advance o mt r)]
      rfl

/-- Every run reaches an exit within `mt + 1` advances from turn index
`r.i ≤ mt`. -/
theorem afterN_reaches_exit (o : Oracles) (mt : Nat) :
    ∀ (n : Nat) (r : RunState), mt + 1 ≤ r.i + n → r.i ≤ mt →
      (afterN o mt r n).exit ≠ none := by
  intro n
  induction n with
  | zero => intro r h1 h2; omega
  | succ n ih =>
      intro r h1 h2
      show (afterN o mt (advance o mt r) n).exit ≠ none
      cases hex : r.exit with
      | some k =>
          rw [advance_exited o mt r k hex, afterN_exited o mt r k hex n, hex]
          simp
      | none =>
          by_cases hi : mt ≤ r.i
          · have hadv : advance o mt r = { r with exit := some ExitKind.budgetExhausted } := by
              unfold advance
              rw [hex]
              simp [hi]
            rw [hadv, afterN_exited o mt _ ExitKind.budgetExhausted rfl n]
            simp
          · have hlt : r.i < mt := by omega
            unfold advance
            rw [hex]
            simp only [if_neg hi]
            cases hst : stepTurn o r.i r.st with
            | next st2 =>
                refine ih ⟨r.i + 1, none, st2⟩ (by simp; omega) (by simp; omega)
            | exit k st2 =>
                rw [afterN_exited o mt ⟨r.i + 1, some k, st2⟩ k rfl n]
                simp

/-- The dispatch trace grows by at most `mt - r.i` over any number of
advances. -/
theorem afterN_dispatch_le (o : Oracles) (mt : Nat) :
    ∀ (n : Nat) (r : RunState),
      (afterN o mt r n).st.dispatches.length ≤ r.st.dispatches.length + (mt - r.i) := by
  intro n
  induction n with
  | zero => intro r; simp [afterN]
  | succ n ih =>
      intro r
      show (afterN o mt (advance o mt r) n).st.dispatches.length ≤ _
      cases hex : r.exit with
      | some k =>
          rw [advance_exited o mt r k hex]
          exact ih r
      | none =>
          by_cases hi : mt ≤ r.i
          · have hadv : advance o mt r = { r with exit := some ExitKind.budgetExhausted } := by
              unfold advance
              rw [hex]
              simp [hi]
            rw [hadv]
            have := ih { r with exit := some ExitKind.budgetExhausted }
            simpa using this
          · have hlt : r.i < mt := by omega
            have hadv : advance o mt r = match stepTurn o r.i r.st with
              | StepRes.next st2 => { i := r.i + 1, exit := none, st := st2 }
              | StepRes.exit k st2 => { i := r.i + 1, exit := some k, st := st2 } := by
              unfold advance
              rw [hex]
              simp [hi]
            rw [hadv]
            cases hst : stepTurn o r.i r.st with
            | next st2 =>
                dsimp only
                have hle := (stepTurn_next_history o r.i r.st st2 hst).2
                have := ih ⟨r.i + 1, none, st2⟩
                simp only at this
                omega
            | exit k st2 =>
                dsimp only
                have heq := (stepTurn_exit_state o r.i r.st st2 k hst).2
                have := ih ⟨r.i + 1, some k, st2⟩
                simp only at this
                rw [heq] at this
                omega

/-! ## Theorems -/

/-- A filesystem holding a file at `/a/projx`, a sibling of the project
root `/a/proj` that shares the root as a string prefix. -/
def fsOutside : FS := ⟨["/", "/a", "/a/proj"], [("/a/projx", "secret")]⟩

/-- C1: the claim that every escaping path resolution is denied is violated
by the code. With project root `/a/proj`, the argument `../projx` resolves
to `/a/projx`, which escapes the root, yet the `startswith` string-prefix
security check of tools.py accepts it and `read_file` reads the file outside
the root. The claim's own example `../../etc/passwd` is denied, so the
failure is specific to sibling paths sharing the root as a string prefix —
the code contradicts its own "Security check" comment. -/
theorem C1_read_file_prefix_escape :
    escapesRoot "/" "/a/proj" "../projx" = true ∧
    insideByCheck "/" "/a/proj" "../projx" = true ∧
    read_file "/" "/a/proj" fsOutside "../projx" = "secret" ∧
    read_file "/" "/a/proj" fsOutside "../../etc/passwd" = denyMsg := by
  exact ⟨rfl, rfl, rfl, rfl⟩

/-- C7: `execute_tool` is a total function returning an observation string
in every case — an unknown capability name yields the formatted "not found"
observation, a capability that raises yields the formatted error
observation, and a successful capability returns its observation verbatim;
`run_terminal_command` likewise converts a missing command, a timeout, or
any other raised exception into a formatted observation string, and reports
a non-zero exit code through the captured stdout/stderr text. Nothing
propagates to the Controller as a hard fault. -/
theorem C7_dispatch_never_raises
    (call : String → J → Except String String) (name : String) (args : J) :
    (toolNames.contains name = false →
      execute_tool call name args =
        "Error: Tool '" ++ name ++ "' not found.") ∧
    (∀ e, toolNames.contains name = true → call name args = Except.error e →
      execute_tool call name args =
        "Error executing tool " ++ name ++ ": " ++ e) ∧
    (∀ s, toolNames.contains name = true → call name args = Except.ok s →
      execute_tool call name args = s) ∧
    (∀ cmd, run_terminal_command ProcOutcome.fileNotFound cmd =
      "Error: Command not found. Make sure the tool is installed and in your PATH.") ∧
    (∀ cmd, run_terminal_command ProcOutcome.timedOut cmd =
      "Error: Command timed out after 120 seconds.") ∧
    (∀ cmd e, run_terminal_command (ProcOutcome.otherExc e) cmd =
      "Error executing command: " ++ e) ∧
    (∀ cmd out err code, run_terminal_command (ProcOutcome.completed out err code) cmd =
      "STDOUT:\n" ++ out ++ "\n" ++ (if err == "" then "" else "STDERR:\n" ++ err)) := by
  refine ⟨fun h => ?_, fun e h he => ?_, fun s h hs => ?_,
    fun _ => rfl, fun _ => rfl, fun _ _ => rfl, fun _ _ _ _ => rfl⟩
  · simp only [execute_tool, h, Bool.false_eq_true, if_false]
  · simp only [execute_tool, h, if_true, he]
  · simp only [execute_tool, h, if_true, hs]

/-- Witness for C7 at concrete inputs: a raising capability is formatted,
an unknown name is reported, a timeout becomes an observation string. -/
theorem C7_dispatch_never_raises_witness :
    execute_tool (fun _ _ => Except.error "boom") "read_file" (J.jobj JObj.nil) =
      "Error executing tool read_file: boom" ∧
    execute_tool (fun _ _ => Except.ok "x") "no_such_tool" (J.jobj JObj.nil) =
      "Error: Tool 'no_such_tool' not found." ∧
    run_terminal_command ProcOutcome.timedOut "sleep 999" =
      "Error: Command timed out after 120 seconds." := by
  refine ⟨?_, ?_, ?_⟩
  · exact (C7_dispatch_never_raises (fun _ _ => Except.error "boom")
      "read_file" (J.jobj JObj.nil)).2.1 "boom" rfl rfl
  · exact (C7_dispatch_never_raises (fun _ _ => Except.ok "x")
      "no_such_tool" (J.jobj JObj.nil)).1 rfl
  · exact (C7_dispatch_never_raises (fun _ _ => Except.ok "x")
      "no_such_tool" (J.jobj JObj.nil)).2.2.2.2.1 "sleep 999"

theorem mem_walkPrefixes (l : List String) (k : Nat) (hk : k < l.length) :
    renderAbs (l.take (k + 1)) ∈ walkPrefixes l := by
  unfold walkPrefixes
  exact List.mem_map.mpr ⟨k, List.mem_range.mpr hk, rfl⟩

theorem walkPrefixes_append_last (initC : List String) (t : String) :
    walkPrefixes (initC ++ [t]) =
      walkPrefixes initC ++ [renderAbs (initC ++ [t])] := by
  unfold walkPrefixes
  rw [List.length_append, List.length_singleton, List.range_succ, List.map_append]
  have hmap : (List.range initC.length).map
      (fun k => renderAbs ((initC ++ [t]).take (k + 1))) =
      (List.range initC.length).map (fun k => renderAbs (initC.take (k + 1))) := by
    refine List.map_congr_left ?_
    intro k hk
    have hk2 : k < initC.length := List.mem_range.mp hk
    rw [List.take_append_of_le_length (by omega)]
  have htake : (initC ++ [t]).take (initC.length + 1) = initC ++ [t] := by
    simp
  have hlast : ([initC.length] : List Nat).map
      (fun k => renderAbs ((initC ++ [t]).take (k + 1))) =
      [renderAbs (initC ++ [t])] := by
    simp [htake]
  rw [hmap, hlast]

/-- When every traversed prefix is an existing directory and no component
is `..`, the resolution walk succeeds and lands on the concatenation. -/
theorem walkResolve_all_dirs (fs : FS) :
    ∀ (l stack : List String),
      (∀ c ∈ l, (c == "..") = false) →
      (∀ k, k < l.length → fs.isDir (renderAbs (stack ++ l.take (k + 1))) = true) →
      walkResolve fs l stack = Except.ok (stack ++ l) := by
  intro l
  induction l with
  | nil => intro stack h1 h2; simp [walkResolve]
  | cons c rest ih =>
      intro stack h1 h2
      have hc : (c == "..") = false := h1 c (by simp)
      have hd : fs.isDir (renderAbs (stack ++ [c])) = true := by
        have := h2 0 (by simp)
        simpa using this
      unfold walkResolve
      rw [hc, hd]
      simp only [Bool.false_eq_true, if_false, if_true]
      have hrec := ih (stack ++ [c]) (fun x hx => h1 x (by simp [hx])) ?_
      · rw [hrec, List.append_assoc]
        simp
      · intro k hk
        have := h2 (k + 1) (by simp; omega)
        simpa [List.take_succ_cons, List.append_assoc] using this

/-- A successful `..`-free existence walk means every traversed prefix
exists as a directory or a file. -/
theorem existsWalk_prefixes (fs : FS) :
    ∀ (l stack : List String),
      (∀ c ∈ l, (c == "..") = false) →
      existsWalk fs l stack = true →
      ∀ k, k < l.length →
        fs.isDir (renderAbs (stack ++ l.take (k + 1))) = true ∨
        fs.isFile (renderAbs (stack ++ l.take (k + 1))) = true := by
  intro l
  induction l with
  | nil =>
      intro stack h1 h2 k hk
      exact absurd hk (by simp)
  | cons c rest ih =>
      intro stack h1 h2 k hk
      have hc : (c == "..") = false := h1 c (by simp)
      cases rest with
      | nil =>
          have hk0 : k = 0 := by
            simp at hk
            omega
          subst hk0
          unfold existsWalk at h2
          rw [hc] at h2
          simp only [Bool.false_eq_true, if_false, Bool.or_eq_true] at h2
          simpa using h2
      | cons r rs =>
          unfold existsWalk at h2
          rw [hc] at h2
          simp only [Bool.false_eq_true, if_false] at h2
          by_cases hd : fs.isDir (renderAbs (stack ++ [c])) = true
          · rw [hd] at h2
            simp only [if_true] at h2
            cases k with
            | zero => exact Or.inl (by simpa using hd)
            | succ k =>
                have := ih (stack ++ [c]) (fun x hx => h1 x (by simp [hx])) h2 k
                  (by simp at hk ⊢; omega)
                simpa [List.take_succ_cons, List.append_assoc] using this
          · have hdf : fs.isDir (renderAbs (stack ++ [c])) = false := by
              rw [Bool.eq_false_iff]
              exact hd
            rw [hdf] at h2
            simp at h2

/-- When the head of the path already exists, `makedirs` goes straight to
the final `mkdir`. -/
theorem makedirsRev_cons_exists (fs : FS) (t : String) (initRev : List String)
    (h : existsWalk fs initRev.reverse [] = true) :
    makedirsRev fs (t :: initRev) = mkdirC fs initRev.reverse t := by
  simp only [makedirsRev, h, Bool.not_true, Bool.false_eq_true, if_false]

/-- When the head does not exist and its recursive creation succeeds, the
final `mkdir` runs on the updated filesystem. -/
theorem makedirsRev_cons_missing (fs fsA : FS) (t : String) (initRev : List String)
    (h : existsWalk fs initRev.reverse [] = false)
    (hrec : makedirsRev fs initRev = (fsA, none)) :
    makedirsRev fs (t :: initRev) = mkdirC fsA initRev.reverse t := by
  simp only [makedirsRev, h, hrec, Bool.not_false, if_true]

/-- `mkdir` with `exist_ok` handling succeeds on a `..`-free path whose
prefix directories all exist and whose target is not obstructed by a file,
creating at most the target directory. -/
theorem mkdirC_creates (fs : FS) (initC : List String) (t : String)
    (hT : (t == "..") = false)
    (hnd : ∀ c ∈ initC, (c == "..") = false)
    (hdirs : ∀ k, k < initC.length → fs.isDir (renderAbs (initC.take (k + 1))) = true)
    (hfile : fs.isFile (renderAbs (initC ++ [t])) = false) :
    ∃ fs2 : FS, mkdirC fs initC t = (fs2, none) ∧
      fs2.files = fs.files ∧
      fs2.isDir (renderAbs (initC ++ [t])) = true ∧
      (∀ a, fs.isDir a = true → fs2.isDir a = true) ∧
      (∀ q ∈ fs2.dirs, q ∈ fs.dirs ∨ q = renderAbs (initC ++ [t])) := by
  have hwr : walkResolve fs initC [] = Except.ok initC := by
    have := walkResolve_all_dirs fs initC []
      hnd (by intro k hk; simpa using hdirs k hk)
    simpa using this
  unfold mkdirC
  rw [hwr, hT]
  simp only [Bool.false_eq_true, if_false]
  by_cases hd : fs.isDir (renderAbs (initC ++ [t])) = true
  · rw [hd]
    simp only [if_true]
    exact ⟨fs, rfl, rfl, hd, fun a ha => ha, fun q hq => Or.inl hq⟩
  · have hdf : fs.isDir (renderAbs (initC ++ [t])) = false := by
      rw [Bool.eq_false_iff]
      exact hd
    rw [hdf, hfile]
    simp only [Bool.false_eq_true, if_false]
    refine ⟨{ fs with dirs := fs.dirs ++ [renderAbs (initC ++ [t])] },
      rfl, rfl, ?_, ?_, ?_⟩
    · simp [FS.isDir]
    · intro a ha
      simp only [FS.isDir] at ha ⊢
      have hmem : a ∈ fs.dirs := by simpa using ha
      exact List.elem_eq_true_of_mem (List.mem_append_left _ hmem)
    · intro q hq
      rcases List.mem_append.mp hq with h | h
      · exact Or.inl h
      · exact Or.inr (by simpa using h)

/-- The membership form of a walk-prefix hypothesis. -/
theorem walkPrefixes_mem_inv (l : List String) (a : String)
    (ha : a ∈ walkPrefixes l) :
    ∃ k, k < l.length ∧ a = renderAbs (l.take (k + 1)) := by
  unfold walkPrefixes at ha
  obtain ⟨k, hk, hk2⟩ := List.mem_map.mp ha
  exact ⟨k, List.mem_range.mp hk, hk2.symm⟩

/-- The heart of C10: over a `..`-free component list whose walk prefixes
are unobstructed by files, `makedirs` succeeds, creates exactly the missing
prefix directories, and leaves the files untouched. -/
theorem makedirs_comps_ok :
    ∀ (comps : List String) (fs : FS),
      (∀ c ∈ comps, (c == "..") = false) →
      (∀ a ∈ walkPrefixes comps, fs.isFile a = false) →
      ∃ fs2 : FS, makedirsRev fs comps.reverse = (fs2, none) ∧
        fs2.files = fs.files ∧
        (∀ a ∈ walkPrefixes comps, fs2.isDir a = true) ∧
        (∀ q ∈ fs2.dirs, q ∈ fs.dirs ∨ q ∈ walkPrefixes comps) := by
  intro comps
  induction comps using List.reverseRecOn with
  | nil =>
      intro fs h1 h2
      exact ⟨fs, rfl, rfl, by simp [walkPrefixes], fun q hq => Or.inl hq⟩
  | append_singleton initC t ih =>
      intro fs h1 h2
      have hT : (t == "..") = false := h1 t (by simp)
      have hInit : ∀ c ∈ initC, (c == "..") = false := fun c hc => h1 c (by simp [hc])
      have hInitRev : ∀ c ∈ initC.reverse, (c == "..") = false := by
        intro c hc
        exact hInit c (List.mem_reverse.mp hc)
      rw [walkPrefixes_append_last] at h2
      have h2init : ∀ a ∈ walkPrefixes initC, fs.isFile a = false := fun a ha =>
        h2 a (List.mem_append_left _ ha)
      have h2full : fs.isFile (renderAbs (initC ++ [t])) = false :=
        h2 _ (List.mem_append_right _ (by simp))
      have hfullmem : renderAbs (initC ++ [t]) ∈ walkPrefixes (initC ++ [t]) := by
        rw [walkPrefixes_append_last]
        exact List.mem_append_right _ (by simp)
      have hrw : (initC ++ [t]).reverse = t :: initC.reverse := by simp
      rw [hrw]
      by_cases hex : existsWalk fs initC.reverse.reverse [] = true
      · -- the head already exists: all its prefixes are dirs (files excluded)
        have hdirsInit : ∀ k, k < initC.length →
            fs.isDir (renderAbs (initC.take (k + 1))) = true := by
          intro k hk
          have hex2 : existsWalk fs initC [] = true := by
            simpa using hex
          rcases existsWalk_prefixes fs initC [] hInit hex2 k hk with h | h
          · simpa using h
          · exfalso
            have hff := h2init _ (mem_walkPrefixes initC k hk)
            rw [show renderAbs ([] ++ initC.take (k + 1)) =
              renderAbs (initC.take (k + 1)) by simp] at h
            rw [hff] at h
            exact Bool.false_ne_true h
        obtain ⟨fs2, hmk, hfi, hfull, hmono, hfrom⟩ :=
          mkdirC_creates fs initC t hT hInit hdirsInit h2full
        rw [makedirsRev_cons_exists fs t initC.reverse hex,
          List.reverse_reverse, hmk]
        refine ⟨fs2, rfl, hfi, ?_, ?_⟩
        · intro a ha
          rw [walkPrefixes_append_last] at ha
          rcases List.mem_append.mp ha with hL | hR
          · obtain ⟨k, hk, rfl⟩ := walkPrefixes_mem_inv initC a hL
            exact hmono _ (hdirsInit k hk)
          · rw [show a = renderAbs (initC ++ [t]) by simpa using hR]
            exact hfull
        · intro q hq
          rcases hfrom q hq with h | h
          · exact Or.inl h
          · exact Or.inr (h ▸ hfullmem)
      · -- the head is missing: recursively create it, then mkdir
        have hex2 : existsWalk fs initC.reverse.reverse [] = false := by
          rw [Bool.eq_false_iff]
          exact hex
        obtain ⟨fsA, hmkA, hfiA, hdirsA, hfromA⟩ := ih fs hInit h2init
        have hdirsInitA : ∀ k, k < initC.length →
            fsA.isDir (renderAbs (initC.take (k + 1))) = true := by
          intro k hk
          exact hdirsA _ (mem_walkPrefixes initC k hk)
        have h2fullA : fsA.isFile (renderAbs (initC ++ [t])) = false := by
          simp only [FS.isFile, hfiA]
          exact h2full
        obtain ⟨fs2, hmk, hfi, hfull, hmono, hfrom⟩ :=
          mkdirC_creates fsA initC t hT hInit hdirsInitA h2fullA
        rw [makedirsRev_cons_missing fs fsA t initC.reverse hex2 hmkA,
          List.reverse_reverse, hmk]
        refine ⟨fs2, rfl, by rw [hfi, hfiA], ?_, ?_⟩
        · intro a ha
          rw [walkPrefixes_append_last] at ha
          rcases List.mem_append.mp ha with hL | hR
          · obtain ⟨k, hk, rfl⟩ := walkPrefixes_mem_inv initC a hL
            exact hmono _ (hdirsInitA k hk)
          · rw [show a = renderAbs (initC ++ [t]) by simpa using hR]
            exact hfull
        · intro q hq
          rcases hfrom q hq with h | h
          · rcases hfromA q h with h3 | h3
            · exact Or.inl h3
            · refine Or.inr ?_
              rw [walkPrefixes_append_last]
              exact List.mem_append_left _ h3
          · exact Or.inr (h ▸ hfullmem)

/-- Helper for C10: a successful `makedirs` walk followed by `openWrite`
writes the file, given that the target path is fresh and its parent is the
walked directory. -/
theorem makedirs_openWrite_ok (fs : FS) (p : String) (dComps : List String)
    (content : String)
    (hnd : ∀ c ∈ dComps, (c == "..") = false)
    (h2 : ∀ a ∈ walkPrefixes dComps, fs.isFile a = false)
    (h3 : p ∉ fs.dirs) (h4 : p ∉ walkPrefixes dComps)
    (h5 : parentDir p = renderAbs dComps)
    (h6 : renderAbs dComps ∈ walkPrefixes dComps) :
    ∃ fs1 fs2 : FS,
      makedirsRev fs dComps.reverse = (fs1, none) ∧
      openWrite fs1 p content = Except.ok fs2 ∧
      fs2.fileContent p = some content ∧
      (∀ a ∈ walkPrefixes dComps, fs2.isDir a = true) := by
  obtain ⟨fs1, hmk, hfiles, hdirs1, hfrom⟩ := makedirs_comps_ok dComps fs hnd h2
  have hpd : fs1.isDir p = false := by
    have hnotmem : p ∉ fs1.dirs := fun hmem => (hfrom p hmem).elim h3 h4
    simp only [FS.isDir]
    simpa using hnotmem
  have hpp : fs1.isDir (parentDir p) = true := by
    rw [h5]
    exact hdirs1 _ h6
  refine ⟨fs1,
    { fs1 with files := (p, content) :: fs1.files.filter (fun f => !(f.1 == p)) },
    hmk, ?_, ?_, ?_⟩
  · simp only [openWrite, hpd, hpp, Bool.not_true, Bool.false_and,
      Bool.false_eq_true, if_false]
  · simp [FS.fileContent]
  · intro a ha
    exact hdirs1 a ha

/-- C10: for a `..`-free relative filepath passing the security check whose
parent directories are missing (and whose walk is unobstructed by files),
`write_file` first creates all missing parent directories, then writes the
content and returns the success observation rather than a
directory-not-found error. -/
theorem C10_write_file_creates_parents
    (cwd root filepath content : String) (fs : FS)
    (h1 : insideByCheck cwd root filepath = true)
    (hnd : ∀ c ∈ rawParts cwd (pyDirname (pyJoin root filepath)),
      (c == "..") = false)
    (h2 : ∀ a ∈ walkPrefixes (rawParts cwd (pyDirname (pyJoin root filepath))),
      fs.isFile a = false)
    (h3 : pyAbspath cwd (pyJoin root filepath) ∉ fs.dirs)
    (h4 : pyAbspath cwd (pyJoin root filepath) ∉
      walkPrefixes (rawParts cwd (pyDirname (pyJoin root filepath))))
    (h5 : parentDir (pyAbspath cwd (pyJoin root filepath)) =
      renderAbs (rawParts cwd (pyDirname (pyJoin root filepath))))
    (h6 : renderAbs (rawParts cwd (pyDirname (pyJoin root filepath))) ∈
      walkPrefixes (rawParts cwd (pyDirname (pyJoin root filepath)))) :
    ∃ fs2 : FS,
      write_file cwd root fs filepath content =
        ("File '" ++ filepath ++ "' has been written successfully.", fs2) ∧
      fs2.fileContent (pyAbspath cwd (pyJoin root filepath)) = some content ∧
      ∀ a ∈ walkPrefixes (rawParts cwd (pyDirname (pyJoin root filepath))),
        fs2.isDir a = true := by
  obtain ⟨fs1, fs2, hmk, how, hc, hdirs⟩ := makedirs_openWrite_ok fs
    (pyAbspath cwd (pyJoin root filepath))
    (rawParts cwd (pyDirname (pyJoin root filepath))) content hnd h2 h3 h4 h5 h6
  refine ⟨fs2, ?_, hc, hdirs⟩
  unfold write_file makedirs
  simp [h1, hmk, how]

/-- Witness for C10: writing `a/b/c.txt` under root `/r` on a filesystem
holding only the root directory creates `/r/a` and `/r/a/b` and the file. -/
theorem C10_write_file_creates_parents_witness :
    ∃ fs2 : FS,
      write_file "/" "/r" ⟨["/r"], []⟩ "a/b/c.txt" "hello" =
        ("File '" ++ "a/b/c.txt" ++ "' has been written successfully.", fs2) ∧
      fs2.fileContent (pyAbspath "/" (pyJoin "/r" "a/b/c.txt")) = some "hello" ∧
      ∀ a ∈ walkPrefixes (rawParts "/" (pyDirname (pyJoin "/r" "a/b/c.txt"))),
        fs2.isDir a = true :=
  C10_write_file_creates_parents "/" "/r" "a/b/c.txt" "hello" ⟨["/r"], []⟩
    (by decide) (by decide) (by decide) (by decide) (by decide) (by decide)
    (by decide)

/-- The unnormalized makedirs walk matches CPython on the obstructed-`..`
error path: with a regular file at `/r/a`, writing to `a/../b/c.txt`
(which passes the security check and resolves to `/r/b/c.txt`) fails with
`NotADirectoryError` raised at `mkdir('/r/a/..')`, rather than
succeeding. -/
theorem write_file_dotdot_walk_error :
    (write_file "/" "/r" ⟨["/", "/r"], [("/r/a", "data")]⟩ "a/../b/c.txt" "x").1 =
      "Error writing file: NotADirectoryError" ∧
    insideByCheck "/" "/r" "a/../b/c.txt" = true :=
  ⟨rfl, rfl⟩

/-! ### The turn-loop claims -/

/-- The loop state at loop start (the claims hold from any starting state;
the concrete scripted runs start from an empty one). -/
def initState : LoopState := ⟨[], [], 0⟩

/-- A scripted run for C2: the model returns well-formed JSON whose action
object carries no `tool_name` key (`json.loads` agrees with `jsonLoads` on
the one string this run uses). -/
def noToolRaw : String := "\x7b\"thought\": \"t\", \"action\": \x7b\x7d\x7d"

def noToolParsed : J :=
  J.jobj (JObj.cons "thought" (J.jstr "t")
    (JObj.cons "action" (J.jobj JObj.nil) JObj.nil))

def noToolOracle : Oracles :=
  { gen := fun _ => GenResult.text noToolRaw
    corrEnabled := false
    corr := fun _ => CorrResult.craises
    appr := fun _ => ApprovalResult.line "y"
    jsonLoads := fun s => if s = noToolRaw then some noToolParsed else none
    dispatch := fun _ _ => "observation" }

/-- C2 counterexample: the claim that every loop exit is one of the four
named terminal states is violated. A well-formed response whose action has
no `tool_name` makes `main_loop` take the `break` at agent.py lines 205-207
— an exit that is none of DONE, CANCELLED, BUDGET_EXHAUSTED, or FATAL. -/
theorem C2_counterexample_silent_exit :
    (finalRun noToolOracle 5 initState).exit = some ExitKind.noToolName ∧
    ExitKind.noToolName ≠ ExitKind.done ∧
    ExitKind.noToolName ≠ ExitKind.cancelled ∧
    ExitKind.noToolName ≠ ExitKind.budgetExhausted ∧
    ExitKind.noToolName ≠ ExitKind.fatal :=
  ⟨rfl, by decide, by decide, by decide, by decide⟩

/-- C2 amended: every run terminates, and every exit is one of the four
named terminal states, the silent `break` when a parsed action lacks a
truthy `tool_name` (agent.py lines 205-207), or an uncaught-exception crash
when a parsed `action`/`args` field is not of the expected type. -/
theorem C2_amended_exits_classified (o : Oracles) (mt : Nat) (init : LoopState) :
    ∃ k : ExitKind, (finalRun o mt init).exit = some k ∧
      (k = ExitKind.done ∨ k = ExitKind.cancelled ∨ k = ExitKind.budgetExhausted ∨
        k = ExitKind.fatal ∨ k = ExitKind.noToolName ∨ k = ExitKind.crashed) := by
  have h := afterN_reaches_exit o mt (mt + 1) ⟨0, none, init⟩
    (by show mt + 1 ≤ 0 + (mt + 1); omega) (by show 0 ≤ mt; omega)
  cases hex : (finalRun o mt init).exit with
  | none => exact absurd hex h
  | some k => exact ⟨k, rfl, by cases k <;> simp⟩

/-- A scripted run for C9: the generation call raises on the first turn, so
the loop breaks to FATAL (agent.py lines 183-186). -/
def fatalOracle : Oracles :=
  { gen := fun _ => GenResult.raises
    corrEnabled := false
    corr := fun _ => CorrResult.craises
    appr := fun _ => ApprovalResult.line "y"
    jsonLoads := fun _ => none
    dispatch := fun _ _ => "observation" }

/-- C9 counterexample: a run ending in FATAL exits with process status 0,
not non-zero — after the `break` at agent.py line 186, `main_loop` returns
normally and the interpreter exits 0. -/
theorem C9_counterexample_fatal_exit_zero :
    (finalRun fatalOracle 5 initState).exit = some ExitKind.fatal ∧
    mainExitCode true fatalOracle 5 initState = 0 :=
  ⟨rfl, rfl⟩

/-- C9 amended: the exit status is 0 whenever the loop terminates without
an uncaught exception — including DONE, BUDGET_EXHAUSTED, CANCELLED, the
missing-tool-name break, and FATAL — and is non-zero (1) exactly when
required configuration is unset at startup (`sys.exit(1)` at agent.py line
128) or the process dies on an uncaught exception. -/
theorem C9_amended_exit_status (configOk : Bool) (o : Oracles) (mt : Nat)
    (init : LoopState) (k : ExitKind) :
    (configOk = false → mainExitCode configOk o mt init = 1) ∧
    ((finalRun o mt init).exit = some k → configOk = true →
      k ≠ ExitKind.crashed → mainExitCode configOk o mt init = 0) ∧
    ((finalRun o mt init).exit = some k → configOk = true →
      k = ExitKind.crashed → mainExitCode configOk o mt init = 1) := by
  refine ⟨fun h => ?_, fun hex hc hk => ?_, fun hex hc hk => ?_⟩
  · simp [mainExitCode, h]
  · simp only [mainExitCode, hc, Bool.not_true, Bool.false_eq_true, if_false, hex]
    cases k with
    | crashed => exact absurd rfl hk
    | done => rfl
    | cancelled => rfl
    | budgetExhausted => rfl
    | fatal => rfl
    | noToolName => rfl
  · subst hk
    simp [mainExitCode, hc, hex, exitCode]

/-- Witness for C9's amended statement: the FATAL run exits with status 0,
and with configuration unset the process exits 1. -/
theorem C9_amended_exit_status_witness :
    mainExitCode true fatalOracle 5 initState = 0 ∧
    mainExitCode false fatalOracle 5 initState = 1 :=
  ⟨(C9_amended_exit_status true fatalOracle 5 initState ExitKind.fatal).2.1
      rfl rfl (by decide),
    (C9_amended_exit_status false fatalOracle 5 initState ExitKind.fatal).1 rfl⟩

/-- Under a script on which every turn is a well-formed, approved,
dispatching turn, the run never halts early and the dispatch trace grows by
exactly one per consumed turn, capped by the budget. -/
theorem afterN_all_dispatching (o : Oracles)
    (hall : ∀ i, ∃ t1 t2 d asked,
      turnOutcome o i = TurnOutcome.contin t1 t2 (some d) asked) (mt : Nat) :
    ∀ (n : Nat) (r : RunState), r.exit = none → r.i ≤ mt →
      ((afterN o mt r n).exit = none ∨
        (afterN o mt r n).exit = some ExitKind.budgetExhausted) ∧
      (afterN o mt r n).st.dispatches.length =
        r.st.dispatches.length + min n (mt - r.i) := by
  intro n
  induction n with
  | zero =>
      intro r hex hi
      exact ⟨Or.inl hex, by simp [afterN]⟩
  | succ n ih =>
      intro r hex hi
      rw [afterN_succ_in]
      by_cases hieq : mt ≤ r.i
      · have hadv : advance o mt r = { r with exit := some ExitKind.budgetExhausted } := by
          unfold advance
          rw [hex]
          simp [hieq]
        rw [hadv, afterN_exited o mt _ ExitKind.budgetExhausted rfl n]
        refine ⟨Or.inr rfl, ?_⟩
        have hz : mt - r.i = 0 := by omega
        simp [hz]
      · have hlt : r.i < mt := by omega
        obtain ⟨t1, t2, d, asked, hto⟩ := hall r.i
        have hst : stepTurn o r.i r.st = StepRes.next
            { history := r.st.history ++ [t1, t2]
              dispatches := r.st.dispatches ++ [d]
              approvalsAsked := r.st.approvalsAsked + (if asked then 1 else 0) } := by
          unfold stepTurn
          rw [hto]
          rfl
        have hadv : advance o mt r =
            { i := r.i + 1, exit := none,
              st := { history := r.st.history ++ [t1, t2]
                      dispatches := r.st.dispatches ++ [d]
                      approvalsAsked := r.st.approvalsAsked + (if asked then 1 else 0) } } := by
          unfold advance
          rw [hex]
          simp [if_neg hieq, hst]
        rw [hadv]
        have hrec := ih ⟨r.i + 1, none,
          { history := r.st.history ++ [t1, t2]
            dispatches := r.st.dispatches ++ [d]
            approvalsAsked := r.st.approvalsAsked + (if asked then 1 else 0) }⟩ rfl
          (by dsimp only; omega)
        refine ⟨hrec.1, ?_⟩
        have hlen := hrec.2
        dsimp only at hlen ⊢
        simp only [List.length_append, List.length_cons, List.length_nil] at hlen ⊢
        omega

/-- C3: the loop performs at most `max_turns` capability dispatches over any
script; under a forced script of well-formed, approved, dispatching
responses on every turn (at least `max_turns + 1` of them are available —
the oracle is total), the run terminates in BUDGET_EXHAUSTED, a controlled
non-fatal termination, with exactly `max_turns` dispatches — so the final
scripted response receives no dispatch. -/
theorem C3_turn_budget (o : Oracles) (mt : Nat) (init : LoopState) :
    (finalRun o mt init).st.dispatches.length ≤ init.dispatches.length + mt ∧
    ((∀ i, ∃ t1 t2 d asked,
        turnOutcome o i = TurnOutcome.contin t1 t2 (some d) asked) →
      (finalRun o mt init).exit = some ExitKind.budgetExhausted ∧
      (finalRun o mt init).st.dispatches.length = init.dispatches.length + mt) := by
  constructor
  · have h := afterN_dispatch_le o mt (mt + 1) ⟨0, none, init⟩
    simpa using h
  · intro hall
    have h := afterN_all_dispatching o hall mt (mt + 1) ⟨0, none, init⟩ rfl
      (by show 0 ≤ mt; omega)
    have hne := afterN_reaches_exit o mt (mt + 1) ⟨0, none, init⟩
      (by show mt + 1 ≤ 0 + (mt + 1); omega) (by show 0 ≤ mt; omega)
    refine ⟨?_, ?_⟩
    · rcases h.1 with h1 | h1
      · exact absurd h1 hne
      · exact h1
    · have hlen := h.2
      have hmin : min (mt + 1) (mt - 0) = mt := by omega
      simpa [hmin] using hlen

/-- A scripted run for the C3 witness: every turn parses to a `list_files`
action that the gate approves. -/
def dispatchRaw : String :=
  "\x7b\"thought\": \"t\", \"action\": \x7b\"tool_name\": \"list_files\", \"args\": \x7b\"directory\": \".\"\x7d\x7d\x7d"

def dispatchParsed : J :=
  J.jobj (JObj.cons "thought" (J.jstr "t")
    (JObj.cons "action"
      (J.jobj (JObj.cons "tool_name" (J.jstr "list_files")
        (JObj.cons "args"
          (J.jobj (JObj.cons "directory" (J.jstr ".") JObj.nil)) JObj.nil)))
      JObj.nil))

def dispatchOracle : Oracles :=
  { gen := fun _ => GenResult.text dispatchRaw
    corrEnabled := false
    corr := fun _ => CorrResult.craises
    appr := fun _ => ApprovalResult.line "y"
    jsonLoads := fun s => if s = dispatchRaw then some dispatchParsed else none
    dispatch := fun _ _ => "observation" }

/-- Witness for C3: with budget 2 and an always-dispatching script, the run
ends in BUDGET_EXHAUSTED with exactly 2 dispatches. -/
theorem C3_turn_budget_witness :
    (finalRun dispatchOracle 2 initState).exit = some ExitKind.budgetExhausted ∧
    (finalRun dispatchOracle 2 initState).st.dispatches.length =
      initState.dispatches.length + 2 :=
  (C3_turn_budget dispatchOracle 2 initState).2 (fun _ => ⟨_, _, _, _, rfl⟩)

/-- C4: on a turn whose parsed action passes the checks but is rejected at
the approval gate (any input other than `y`), no capability is dispatched —
the dispatch trace is unchanged, so in particular `write_file` is never
invoked and the filesystem behind the registry is untouched; the proposed
action is recorded verbatim (its parsed JSON rendered back) as the
model-role turn, the fixed rejection notice is appended as the next
user-role turn, and the loop proceeds to the next iteration. -/
theorem C4_rejection_never_dispatches (o : Oracles) (i : Nat) (st : LoopState)
    (raw s : String) (fields afields : JObj) (tn : J)
    (hgen : o.gen i = GenResult.text raw)
    (hparse : o.jsonLoads (stripFence raw) = some (J.jobj fields))
    (haction : jGetD fields "action" (J.jobj JObj.nil) = J.jobj afields)
    (htool : jGet afields "tool_name" = some tn)
    (hfalsy : falsy tn = false)
    (hfin : jEqStr tn "finish" = false)
    (hwp : (jEqStr tn "write_file" &&
      !writePreviewOk (jGetD afields "args" (J.jobj JObj.nil))) = false)
    (happr : o.appr i = ApprovalResult.line s)
    (hno : (pyLower s == "y") = false) :
    stepTurn o i st = StepRes.next
      { history := st.history ++
          [⟨"model", [dumps (J.jobj fields)]⟩, ⟨"user", [rejectedMsg]⟩]
        dispatches := st.dispatches
        approvalsAsked := st.approvalsAsked + 1 } := by
  have hto : turnOutcome o i = TurnOutcome.contin
      ⟨"model", [dumps (J.jobj fields)]⟩ ⟨"user", [rejectedMsg]⟩ none true := by
    simp only [turnOutcome, hgen, hparse, afterParse, haction, htool, hfalsy,
      hfin, hwp, happr, hno, Bool.false_eq_true, if_false, Bool.not_false, if_true]
  unfold stepTurn
  rw [hto]
  simp

/-- Witness inputs for C4: a `write_file` proposal with a well-formed diff
preview that the gate rejects with `n`. -/
def rejectRaw : String :=
  "\x7b\"thought\": \"t\", \"action\": \x7b\"tool_name\": \"write_file\", \"args\": \x7b\"filepath\": \"a.txt\", \"content\": \"hi\"\x7d\x7d\x7d"

def rejectArgs : JObj :=
  JObj.cons "filepath" (J.jstr "a.txt") (JObj.cons "content" (J.jstr "hi") JObj.nil)

def rejectAction : JObj :=
  JObj.cons "tool_name" (J.jstr "write_file")
    (JObj.cons "args" (J.jobj rejectArgs) JObj.nil)

def rejectFields : JObj :=
  JObj.cons "thought" (J.jstr "t") (JObj.cons "action" (J.jobj rejectAction) JObj.nil)

def rejectOracle : Oracles :=
  { gen := fun _ => GenResult.text rejectRaw
    corrEnabled := false
    corr := fun _ => CorrResult.craises
    appr := fun _ => ApprovalResult.line "n"
    jsonLoads := fun t => if t = rejectRaw then some (J.jobj rejectFields) else none
    dispatch := fun _ _ => "observation" }

/-- Witness for C4: the rejected `write_file` turn dispatches nothing and
appends exactly the verbatim proposal and the fixed rejection notice. -/
theorem C4_rejection_never_dispatches_witness :
    stepTurn rejectOracle 0 initState = StepRes.next
      { history := initState.history ++
          [⟨"model", [dumps (J.jobj rejectFields)]⟩, ⟨"user", [rejectedMsg]⟩]
        dispatches := initState.dispatches
        approvalsAsked := initState.approvalsAsked + 1 } :=
  C4_rejection_never_dispatches rejectOracle 0 initState rejectRaw "n"
    rejectFields rejectAction (J.jstr "write_file")
    rfl rfl rfl rfl rfl rfl (by decide) rfl (by decide)

/-- C5: on a turn whose response fails JSON decoding and recovery fails too
(the corrector is absent, raises, or its output fails to re-parse), no
capability is dispatched and the approval gate is never consulted; the
failed attempt is appended as a model-role turn, a user-role instruction
turn follows, and the loop advances to the next iteration rather than
aborting. -/
theorem C5_decode_failure_never_dispatches (o : Oracles) (i : Nat)
    (st : LoopState) (raw : String)
    (hgen : o.gen i = GenResult.text raw)
    (hbad : o.jsonLoads (stripFence raw) = none)
    (hrec : o.corrEnabled = false ∨ o.corr i = CorrResult.craises ∨
      ∃ ct, o.corr i = CorrResult.ctext ct ∧ o.jsonLoads (stripFence ct) = none) :
    ∃ m u : Turn, m.role = "model" ∧ u.role = "user" ∧
      stepTurn o i st = StepRes.next
        { history := st.history ++ [m, u]
          dispatches := st.dispatches
          approvalsAsked := st.approvalsAsked } := by
  rcases hrec with hc | hc | ⟨ct, hc, hbad2⟩
  · refine ⟨⟨"model", [stripFence raw]⟩, ⟨"user", [msgInvalidJson]⟩, rfl, rfl, ?_⟩
    have hto : turnOutcome o i = TurnOutcome.contin
        ⟨"model", [stripFence raw]⟩ ⟨"user", [msgInvalidJson]⟩ none false := by
      simp only [turnOutcome, hgen, hbad, hc, Bool.not_false, if_true]
    unfold stepTurn
    rw [hto]
    simp
  · by_cases hce : o.corrEnabled = true
    · refine ⟨⟨"model", [stripFence raw]⟩, ⟨"user", [msgCorrFailed]⟩, rfl, rfl, ?_⟩
      have hto : turnOutcome o i = TurnOutcome.contin
          ⟨"model", [stripFence raw]⟩ ⟨"user", [msgCorrFailed]⟩ none false := by
        simp only [turnOutcome, hgen, hbad, hce, hc, Bool.not_true,
          Bool.false_eq_true, if_false]
      unfold stepTurn
      rw [hto]
      simp
    · refine ⟨⟨"model", [stripFence raw]⟩, ⟨"user", [msgInvalidJson]⟩, rfl, rfl, ?_⟩
      have hce2 : o.corrEnabled = false := by simpa using hce
      have hto : turnOutcome o i = TurnOutcome.contin
          ⟨"model", [stripFence raw]⟩ ⟨"user", [msgInvalidJson]⟩ none false := by
        simp only [turnOutcome, hgen, hbad, hce2, Bool.not_false, if_true]
      unfold stepTurn
      rw [hto]
      simp
  · by_cases hce : o.corrEnabled = true
    · refine ⟨⟨"model", [stripFence ct]⟩, ⟨"user", [msgCorrFailed]⟩, rfl, rfl, ?_⟩
      have hto : turnOutcome o i = TurnOutcome.contin
          ⟨"model", [stripFence ct]⟩ ⟨"user", [msgCorrFailed]⟩ none false := by
        simp only [turnOutcome, hgen, hbad, hce, hc, hbad2, Bool.not_true,
          Bool.false_eq_true, if_false]
      unfold stepTurn
      rw [hto]
      simp
    · refine ⟨⟨"model", [stripFence raw]⟩, ⟨"user", [msgInvalidJson]⟩, rfl, rfl, ?_⟩
      have hce2 : o.corrEnabled = false := by simpa using hce
      have hto : turnOutcome o i = TurnOutcome.contin
          ⟨"model", [stripFence raw]⟩ ⟨"user", [msgInvalidJson]⟩ none false := by
        simp only [turnOutcome, hgen, hbad, hce2, Bool.not_false, if_true]
      unfold stepTurn
      rw [hto]
      simp

/-- Witness inputs for C5: a malformed response with the corrector enabled
but whose corrected output still fails to parse. -/
def malformedOracle : Oracles :=
  { gen := fun _ => GenResult.text "not json"
    corrEnabled := true
    corr := fun _ => CorrResult.ctext "still not json"
    appr := fun _ => ApprovalResult.line "y"
    jsonLoads := fun _ => none
    dispatch := fun _ _ => "observation" }

/-- Witness for C5: the doubly-failed decode turn dispatches nothing and
appends the failed attempt plus the instruction turn. -/
theorem C5_decode_failure_never_dispatches_witness :
    ∃ m u : Turn, m.role = "model" ∧ u.role = "user" ∧
      stepTurn malformedOracle 0 initState = StepRes.next
        { history := initState.history ++ [m, u]
          dispatches := initState.dispatches
          approvalsAsked := initState.approvalsAsked } :=
  C5_decode_failure_never_dispatches malformedOracle 0 initState "not json"
    rfl rfl (Or.inr (Or.inr ⟨"still not json", rfl, rfl⟩))

/-- A scripted run for the C6 counterexample: the model finishes with a
non-object `args` value. -/
def finishCrashRaw : String :=
  "\x7b\"action\": \x7b\"tool_name\": \"finish\", \"args\": \"done\"\x7d\x7d"

def finishCrashParsed : J :=
  J.jobj (JObj.cons "action"
    (J.jobj (JObj.cons "tool_name" (J.jstr "finish")
      (JObj.cons "args" (J.jstr "done") JObj.nil)))
    JObj.nil)

def finishCrashOracle : Oracles :=
  { gen := fun _ => GenResult.text finishCrashRaw
    corrEnabled := false
    corr := fun _ => CorrResult.craises
    appr := fun _ => ApprovalResult.line "y"
    jsonLoads := fun s => if s = finishCrashRaw then some finishCrashParsed else none
    dispatch := fun _ _ => "observation" }

/-- C6 counterexample: a parsed response whose action name equals `finish`
but whose `args` is the string `"done"` does not reach DONE — rendering the
summary calls `args.get(...)` (agent.py line 214) on a non-dict, which
raises an uncaught `AttributeError` and crashes the process. -/
theorem C6_counterexample_finish_crash :
    (finalRun finishCrashOracle 5 initState).exit = some ExitKind.crashed ∧
    ExitKind.crashed ≠ ExitKind.done :=
  ⟨rfl, by decide⟩

/-- C6 amended: for every parsed response whose action name equals `finish`
and whose `args` value is a JSON object (as the protocol prescribes), the
loop transitions directly to DONE after rendering the supplied summary,
without consulting the approval gate, without dispatching any capability,
and without touching the loop state. -/
theorem C6_amended_finish_short_circuit (o : Oracles) (i : Nat) (st : LoopState)
    (raw : String) (fields afields : JObj)
    (hgen : o.gen i = GenResult.text raw)
    (hparse : o.jsonLoads (stripFence raw) = some (J.jobj fields))
    (haction : jGetD fields "action" (J.jobj JObj.nil) = J.jobj afields)
    (htool : jGet afields "tool_name" = some (J.jstr "finish"))
    (hargs : ∃ aargs, jGetD afields "args" (J.jobj JObj.nil) = J.jobj aargs) :
    turnOutcome o i = TurnOutcome.halt ExitKind.done false ∧
    stepTurn o i st = StepRes.exit ExitKind.done st := by
  obtain ⟨aargs, hargsv⟩ := hargs
  have hfal : falsy (J.jstr "finish") = false := by decide
  have hfin : jEqStr (J.jstr "finish") "finish" = true := by decide
  have hto : turnOutcome o i = TurnOutcome.halt ExitKind.done false := by
    simp only [turnOutcome, hgen, hparse, afterParse, haction, htool, hargsv,
      hfal, hfin, Bool.false_eq_true, if_false, if_true]
  refine ⟨hto, ?_⟩
  unfold stepTurn
  rw [hto]
  simp

/-- A scripted run for the C6 witness: a well-formed `finish` action. -/
def finishOkRaw : String :=
  "\x7b\"action\": \x7b\"tool_name\": \"finish\", \"args\": \x7b\"final_summary\": \"done\"\x7d\x7d\x7d"

def finishOkAction : JObj :=
  JObj.cons "tool_name" (J.jstr "finish")
    (JObj.cons "args"
      (J.jobj (JObj.cons "final_summary" (J.jstr "done") JObj.nil)) JObj.nil)

def finishOkFields : JObj := JObj.cons "action" (J.jobj finishOkAction) JObj.nil

def finishOkOracle : Oracles :=
  { gen := fun _ => GenResult.text finishOkRaw
    corrEnabled := false
    corr := fun _ => CorrResult.craises
    appr := fun _ => ApprovalResult.line "y"
    jsonLoads := fun s => if s = finishOkRaw then some (J.jobj finishOkFields) else none
    dispatch := fun _ _ => "observation" }

/-- Witness for C6's amended statement: the well-formed `finish` turn halts
in DONE with the loop state untouched. -/
theorem C6_amended_finish_short_circuit_witness :
    turnOutcome finishOkOracle 0 = TurnOutcome.halt ExitKind.done false ∧
    stepTurn finishOkOracle 0 initState = StepRes.exit ExitKind.done initState :=
  C6_amended_finish_short_circuit finishOkOracle 0 initState finishOkRaw
    finishOkFields finishOkAction rfl rfl rfl rfl
    ⟨JObj.cons "final_summary" (J.jstr "done") JObj.nil, rfl⟩

/-- Each advance extends the history by a (possibly empty) suffix, and by
exactly two turns whenever the run has not yet exited afterwards. -/
theorem advance_history (o : Oracles) (mt : Nat) (r : RunState) :
    (∃ t, (advance o mt r).st.history = r.st.history ++ t) ∧
    ((advance o mt r).exit = none →
      ∃ t1 t2, (advance o mt r).st.history = r.st.history ++ [t1, t2]) := by
  cases hex : r.exit with
  | some k =>
      rw [advance_exited o mt r k hex]
      exact ⟨⟨[], by simp⟩, fun h => by rw [hex] at h; exact absurd h (by simp)⟩
  | none =>
      by_cases hi : mt ≤ r.i
      · have hadv : advance o mt r = { r with exit := some ExitKind.budgetExhausted } := by
          unfold advance
          rw [hex]
          simp [hi]
        rw [hadv]
        exact ⟨⟨[], by simp⟩, fun h => absurd h (by simp)⟩
      · have hadv : advance o mt r = match stepTurn o r.i r.st with
          | StepRes.next st2 => { i := r.i + 1, exit := none, st := st2 }
          | StepRes.exit k st2 => { i := r.i + 1, exit := some k, st := st2 } := by
          unfold advance
          rw [hex]
          simp [hi]
        rw [hadv]
        cases hst : stepTurn o r.i r.st with
        | next st2 =>
            obtain ⟨⟨t1, t2, hh⟩, _⟩ := stepTurn_next_history o r.i r.st st2 hst
            exact ⟨⟨[t1, t2], hh⟩, fun _ => ⟨t1, t2, hh⟩⟩
        | exit k st2 =>
            obtain ⟨hh, _⟩ := stepTurn_exit_state o r.i r.st st2 k hst
            exact ⟨⟨[], by simp [hh]⟩, fun h => absurd h (by simp)⟩

/-- C8: history is append-only — over any script, the history after `n`
advances is a prefix of the history after `n + 1`, and a strict one on
every advance after which the loop is still running (existing turn records
are never edited, deleted, or reordered: the state only ever extends on the
right). -/
theorem C8_history_append_only (o : Oracles) (mt : Nat) (init : LoopState)
    (n : Nat) :
    (afterN o mt ⟨0, none, init⟩ n).st.history <+:
      (afterN o mt ⟨0, none, init⟩ (n + 1)).st.history ∧
    ((afterN o mt ⟨0, none, init⟩ (n + 1)).exit = none →
      (afterN o mt ⟨0, none, init⟩ n).st.history ≠
        (afterN o mt ⟨0, none, init⟩ (n + 1)).st.history) := by
  rw [afterN_succ_out]
  obtain ⟨⟨t, ht⟩, hstrict⟩ := advance_history o mt (afterN o mt ⟨0, none, init⟩ n)
  constructor
  · rw [ht]
    exact ⟨t, rfl⟩
  · intro hex heq
    obtain ⟨t1, t2, h2⟩ := hstrict hex
    rw [h2] at heq
    have hlen := congrArg List.length heq
    simp at hlen

/-- Witness for C8 at a concrete script: the first advance of the
always-dispatching run strictly extends the history. -/
theorem C8_history_append_only_witness :
    (afterN dispatchOracle 2 ⟨0, none, initState⟩ 0).st.history <+:
      (afterN dispatchOracle 2 ⟨0, none, initState⟩ 1).st.history ∧
    ((afterN dispatchOracle 2 ⟨0, none, initState⟩ 1).exit = none →
      (afterN dispatchOracle 2 ⟨0, none, initState⟩ 0).st.history ≠
        (afterN dispatchOracle 2 ⟨0, none, initState⟩ 1).st.history) :=
  C8_history_append_only dispatchOracle 2 initState 0

end Reacto
